import Mathlib

/-!
Shallow embedding of the neuralgeom repository, covering:
* `neuralgeom/models/fc_vae.py` (VAE encode/reparameterize dispatch),
* `neuralgeom/default_config.py` (dataset-name validation),
* `neuralgeom/main.py` (model dispatch, curvature evaluation),
* `abn/datasets/synthetic.py` (synthetic data generators),
* `neurometry/datasets/piRNNs/saliency/experiment.py` (training loop lr),
* `neurometry/.../xu_rnn/configs/rnn_isometry.py` (config dictionary),
* `neurometry/datasets/piRNNs/dual_agent/visualize.py` (rate maps).

Machine reals are modelled by `ℚ`; external library calls (torch samplers,
skimage transforms, numpy random draws) are modelled as explicit function
arguments, with the numpy global random state threaded as an explicit
state value of an abstract type `S`. Fallible Python code (unbound locals,
division by zero) is modelled with `Option`/`Except`.
-/

namespace FcVae

/-- Distribution objects constructed by `VAE.reparameterize`
(`torch.distributions.Normal`, `hyperspherical_vae`'s `VonMisesFisher`
and `HypersphericalUniform`), kept symbolic: parameters are recorded,
sampling is an abstract argument. -/
inductive Distribution : Type
  | normal (loc scale : List ℚ)
  | vonMisesFisher (loc : List ℚ) (concentration : List ℚ)
  | hypersphericalUniform (dim : ℤ)
  deriving DecidableEq, Repr

/-- `torch.ones_like(t)`: a tensor of ones with the shape of `t`. -/
def onesLike (t : List ℚ) : List ℚ := t.map fun _ => 1

/-- `VAE.encode`, from the final hidden activation `h` on
(fc_vae.py lines 92-101): dispatch on `posterior_type`; the linear heads
`fc_z_mu`/`fc_z_logvar` and the softplus are abstract arguments. An
unrecognized `posterior_type` leaves `posterior_params` unbound, raising
`UnboundLocalError` at the `return`: modelled by `none`. -/
def encode (fc_z_mu fc_z_logvar : List ℚ → List ℚ)
    (softplus : List ℚ → List ℚ) (posterior_type : String)
    (h : List ℚ) : Option (List ℚ × List ℚ) :=
  if posterior_type = "gaussian" then
    some (fc_z_mu h, fc_z_logvar h)
  else if posterior_type = "hyperspherical" then
    some (fc_z_mu h, (softplus (fc_z_logvar h)).map fun a => a + 1)
  else
    none

/-- `VAE.reparameterize` (fc_vae.py lines 103-134): dispatch on
`posterior_type`; `texp` models `torch.exp` pointwise and `rsample`
models `q_z.rsample()`. An unrecognized `posterior_type` leaves `q_z`
unbound, raising `UnboundLocalError` at `q_z.rsample()`: modelled by
`none`. -/
def reparameterize (texp : ℚ → ℚ) (rsample : Distribution → List ℚ)
    (posterior_type : String) (latent_dim : ℤ)
    (posterior_params : List ℚ × List ℚ) :
    Option (List ℚ × Distribution × Distribution) :=
  if posterior_type = "gaussian" then
    let z_mu := posterior_params.1
    let z_logvar := posterior_params.2
    let z_std := z_logvar.map fun a => texp (1/2 * a)
    let p_z := Distribution.normal (onesLike z_mu) (onesLike z_std)
    let q_z := Distribution.normal z_mu z_std
    some (rsample q_z, q_z, p_z)
  else if posterior_type = "hyperspherical" then
    let z_mu := posterior_params.1
    let z_kappa := posterior_params.2
    let q_z := Distribution.vonMisesFisher z_mu z_kappa
    let p_z := Distribution.hypersphericalUniform (latent_dim - 1)
    some (rsample q_z, q_z, p_z)
  else
    none

end FcVae

namespace MainScript

/-- The two model classes `train_test_model` can construct
(main.py lines 84-105). -/
inductive ModelKind : Type
  | neuralVAE
  | toroidalVAE
  deriving DecidableEq, Repr

/-- Model selection in `train_test_model` (main.py lines 84-105):
`if posterior_type in ("gaussian", "hyperspherical")` builds a
`NeuralVAE`, `elif "toroidal"` builds a `ToroidalVAE`, and otherwise
`model` stays unbound so `model.parameters()` raises
`UnboundLocalError`: modelled by `none`. -/
def select_model (posterior_type : String) : Option ModelKind :=
  if posterior_type = "gaussian" ∨ posterior_type = "hyperspherical" then
    some ModelKind.neuralVAE
  else if posterior_type = "toroidal" then
    some ModelKind.toroidalVAE
  else
    none

/-- Observable computation/logging events of `evaluate_curvature`
(main.py lines 154-186). -/
inductive CurvEvent : Type
  | computedTrueCurvature
  | loggedFigCurvNormsTrue
  | computedLearnedCurvature
  | loggedCurvatureError
  | loggedFigCurvNormsLearned
  deriving DecidableEq, Repr

/-- The synthetic dataset names tested by `evaluate_curvature`. -/
def synthetic_names : List String :=
  ["s1_synthetic", "s2_synthetic", "t2_synthetic"]

/-- `evaluate_curvature` (main.py lines 154-186) as its ordered trace of
computation/logging events: true curvature and its figure only for the
synthetic datasets, then the learned curvature unconditionally, then the
curvature error only for the synthetic datasets, then the learned-curvature
figure unconditionally. -/
def evaluate_curvature (dataset_name : String) : List CurvEvent :=
  (if dataset_name ∈ synthetic_names then
    [CurvEvent.computedTrueCurvature, CurvEvent.loggedFigCurvNormsTrue]
  else []) ++
  [CurvEvent.computedLearnedCurvature] ++
  (if dataset_name ∈ synthetic_names then [CurvEvent.loggedCurvatureError]
  else []) ++
  [CurvEvent.loggedFigCurvNormsLearned]

end MainScript

namespace DefaultConfig

/-- The recognized dataset names (default_config.py lines 123-129). -/
def recognized_dataset_names : List String :=
  ["s1_synthetic", "s2_synthetic", "t2_synthetic", "experimental",
   "grid_cells"]

/-- The validation loop over `dataset_name`
(default_config.py lines 121-130): the first unrecognized name raises
`ValueError(f"Dataset name {one_dataset_name} not recognized.")`. -/
def validate_dataset_names (dataset_name : List String) :
    Except String Unit :=
  match dataset_name with
  | [] => Except.ok ()
  | one_dataset_name :: rest =>
    if one_dataset_name ∈ recognized_dataset_names then
      validate_dataset_names rest
    else
      Except.error
        ("Dataset name " ++ one_dataset_name ++ " not recognized.")

end DefaultConfig

/-- Claim C6:
`evaluate_curvature` computes/logs the true mean curvature and the
learned-vs-true curvature error exactly for dataset names among
`s1_synthetic`, `s2_synthetic`, `t2_synthetic`, and computes/logs the
learned mean curvature for every dataset name. -/
theorem evaluate_curvature_dispatch (dataset_name : String) :
    ((MainScript.CurvEvent.computedTrueCurvature ∈
        MainScript.evaluate_curvature dataset_name ∧
      MainScript.CurvEvent.loggedCurvatureError ∈
        MainScript.evaluate_curvature dataset_name) ↔
      dataset_name ∈ MainScript.synthetic_names) ∧
    MainScript.CurvEvent.computedLearnedCurvature ∈
      MainScript.evaluate_curvature dataset_name ∧
    MainScript.CurvEvent.loggedFigCurvNormsLearned ∈
      MainScript.evaluate_curvature dataset_name := by
  by_cases h : dataset_name ∈ MainScript.synthetic_names <;>
    simp [MainScript.evaluate_curvature, h]
/-- Claim C1:
`VAE.reparameterize` dispatches on `posterior_type`: for `"gaussian"` it
samples `z` from a `Normal` with mean `z_mu` and standard deviation
`exp(0.5 * z_logvar)`; for `"hyperspherical"` it samples `z` from a
`VonMisesFisher` with mean direction `z_mu` and concentration `z_kappa`,
paired with a `HypersphericalUniform` prior of dimension
`latent_dim - 1`. -/
theorem reparameterize_dispatch (texp : ℚ → ℚ)
    (rsample : FcVae.Distribution → List ℚ) (latent_dim : ℤ)
    (z_mu z_logvar z_kappa : List ℚ) :
    (∃ p_z,
      FcVae.reparameterize texp rsample "gaussian" latent_dim
          (z_mu, z_logvar) =
        some
          (rsample
            (FcVae.Distribution.normal z_mu
              (z_logvar.map fun a => texp (1/2 * a))),
          FcVae.Distribution.normal z_mu
            (z_logvar.map fun a => texp (1/2 * a)),
          p_z)) ∧
    FcVae.reparameterize texp rsample "hyperspherical" latent_dim
        (z_mu, z_kappa) =
      some
        (rsample (FcVae.Distribution.vonMisesFisher z_mu z_kappa),
        FcVae.Distribution.vonMisesFisher z_mu z_kappa,
        FcVae.Distribution.hypersphericalUniform (latent_dim - 1)) :=
  ⟨⟨FcVae.Distribution.normal
      (FcVae.onesLike z_mu)
      (FcVae.onesLike (z_logvar.map fun a => texp (1/2 * a))), rfl⟩,
   rfl⟩

/-- `onesLike` is the constant-ones list of the same length. -/
theorem FcVae.onesLike_eq_replicate (t : List ℚ) :
    FcVae.onesLike t = List.replicate t.length 1 := by
  induction t with
  | nil => rfl
  | cons a t _ => simp [FcVae.onesLike, List.replicate_succ]

/-- Claim C8:
In `VAE.reparameterize` with `posterior_type == "gaussian"`, the prior
`p_z` is a `Normal` whose location and scale are all-ones tensors
(`torch.ones_like`), so for a nonempty latent its mean vector is the
all-ones vector, not the all-zeros vector of a standard normal prior. -/
theorem reparameterize_gaussian_prior (texp : ℚ → ℚ)
    (rsample : FcVae.Distribution → List ℚ) (latent_dim : ℤ)
    (z_mu z_logvar : List ℚ) (h : z_mu ≠ []) :
    ∃ z q_z,
      FcVae.reparameterize texp rsample "gaussian" latent_dim
          (z_mu, z_logvar) =
        some (z, q_z,
          FcVae.Distribution.normal (List.replicate z_mu.length 1)
            (List.replicate z_logvar.length 1)) ∧
      List.replicate z_mu.length (1 : ℚ) ≠
        List.replicate z_mu.length (0 : ℚ) := by
  refine ⟨rsample (FcVae.Distribution.normal z_mu
      (z_logvar.map fun a => texp (1/2 * a))),
    FcVae.Distribution.normal z_mu (z_logvar.map fun a => texp (1/2 * a)),
    ?_, ?_⟩
  · simp [FcVae.reparameterize, FcVae.onesLike_eq_replicate]
  · intro hc
    rcases List.exists_cons_of_ne_nil h with ⟨a, t, rfl⟩
    simp [List.replicate_succ] at hc

/-- Closed instance of `reparameterize_gaussian_prior` at a concrete
nonempty latent vector. -/
theorem reparameterize_gaussian_prior_witness :
    ([(3 : ℚ)] ≠ []) ∧
    ∃ z q_z,
      FcVae.reparameterize (fun a => a) (fun _ => []) "gaussian" 2
          ([(3 : ℚ)], [(4 : ℚ)]) =
        some (z, q_z,
          FcVae.Distribution.normal (List.replicate 1 1)
            (List.replicate 1 1)) ∧
      List.replicate 1 (1 : ℚ) ≠ List.replicate 1 (0 : ℚ) :=
  ⟨by decide,
   by simpa using
     reparameterize_gaussian_prior (fun a => a) (fun _ => []) 2 [3] [4]
       (by decide)⟩

/-- Claim C3:
Every dataset name outside the recognized set makes the configuration
validation loop raise a `ValueError` naming the dataset, and every
`posterior_type` outside {gaussian, hyperspherical, toroidal} makes both
the model dispatch of `train_test_model` and the dispatch of
`VAE.encode`/`VAE.reparameterize` raise (unbound local) instead of
proceeding silently. -/
theorem unrecognized_config_raises (name posterior_type : String)
    (hname : name ∉ DefaultConfig.recognized_dataset_names)
    (hpt : posterior_type ∉ ["gaussian", "hyperspherical", "toroidal"]) :
    DefaultConfig.validate_dataset_names [name] =
      Except.error ("Dataset name " ++ name ++ " not recognized.") ∧
    MainScript.select_model posterior_type = none ∧
    (∀ fc_z_mu fc_z_logvar softplus h,
      FcVae.encode fc_z_mu fc_z_logvar softplus posterior_type h =
        none) ∧
    (∀ texp rsample latent_dim posterior_params,
      FcVae.reparameterize texp rsample posterior_type latent_dim
          posterior_params = none) := by
  simp only [List.mem_cons, List.mem_singleton, not_or,
    List.not_mem_nil, or_false] at hpt
  obtain ⟨h1, h2, h3⟩ := hpt
  refine ⟨?_, ?_, ?_, ?_⟩
  · simp [DefaultConfig.validate_dataset_names, hname]
  · simp [MainScript.select_model, h1, h2, h3]
  · intro fc_z_mu fc_z_logvar softplus h
    simp [FcVae.encode, h1, h2]
  · intro texp rsample latent_dim posterior_params
    simp [FcVae.reparameterize, h1, h2]

/-- Closed instance of `unrecognized_config_raises` at the dataset name
`"mnist"` and posterior type `"laplace"`. -/
theorem unrecognized_config_raises_witness :
    ("mnist" ∉ DefaultConfig.recognized_dataset_names) ∧
    ("laplace" ∉ ["gaussian", "hyperspherical", "toroidal"]) ∧
    (DefaultConfig.validate_dataset_names ["mnist"] =
      Except.error "Dataset name mnist not recognized." ∧
    MainScript.select_model "laplace" = none ∧
    (∀ fc_z_mu fc_z_logvar softplus h,
      FcVae.encode fc_z_mu fc_z_logvar softplus "laplace" h = none) ∧
    (∀ texp rsample latent_dim posterior_params,
      FcVae.reparameterize texp rsample "laplace" latent_dim
          posterior_params = none)) :=
  ⟨by decide, by decide,
   unrecognized_config_raises "mnist" "laplace" (by decide) (by decide)⟩

namespace Synthetic

/-- A 2D image: a list of rows of machine floats. -/
abbrev Img := List (List ℚ)

/-- Elementwise numpy addition `blur_image + noise` of equal-shape
images. -/
def imgAdd (a b : Img) : Img := List.zipWith (List.zipWith (· + ·)) a b

/-- The two-column pandas label table
`pd.DataFrame({"angles": angles, "scalars": scalars})`. -/
structure Labels where
  angles : List ℚ
  scalars : List ℚ
  deriving DecidableEq, Repr

/-- Inner loop of `load_images` (synthetic.py lines 69-75) over the
scalar indices: per iteration, `scalar = 1 + 0.2 * i_scalar`, the blurred
rotated image plus one fresh normal-noise draw is appended, and the
current angle and scalar are appended to the label columns. The numpy
global random state is the threaded value of type `S`; `drawNoise`
models `np.random.normal(loc=0.0, scale=0.05, size=blur_image.shape)`. -/
def load_images_inner {S : Type} (gaussianBlur : Img → ℚ → Img)
    (drawNoise : S → Img × S) (rot_image : Img) (angle : ℚ) :
    List ℕ → S → (List Img × List ℚ × List ℚ) × S
  | [], s => (([], [], []), s)
  | i_scalar :: rest, s =>
    let scalar : ℚ := 1 + 1/5 * i_scalar
    let blur_image := gaussianBlur rot_image scalar
    let r := drawNoise s
    let rec_ := load_images_inner gaussianBlur drawNoise rot_image angle
      rest r.2
    ((imgAdd blur_image r.1 :: rec_.1.1, angle :: rec_.1.2.1,
      scalar :: rec_.1.2.2), rec_.2)

/-- Outer loop of `load_images` (synthetic.py lines 66-75) over the
angle indices: `angle = 360 * i_angle / n_angles`, the base image is
rotated once per angle, then the inner loop over scalars runs. -/
def load_images_outer {S : Type} (rotate : Img → ℚ → Img)
    (gaussianBlur : Img → ℚ → Img) (drawNoise : S → Img × S)
    (image : Img) (n_scalars n_angles : ℕ) :
    List ℕ → S → (List Img × List ℚ × List ℚ) × S
  | [], s => (([], [], []), s)
  | i_angle :: rest, s =>
    let angle : ℚ := 360 * i_angle / n_angles
    let rot_image := rotate image angle
    let inner := load_images_inner gaussianBlur drawNoise rot_image angle
      (List.range n_scalars) s
    let outer := load_images_outer rotate gaussianBlur drawNoise image
      n_scalars n_angles rest inner.2
    ((inner.1.1 ++ outer.1.1, inner.1.2.1 ++ outer.1.2.1,
      inner.1.2.2 ++ outer.1.2.2), outer.2)

/-- `load_images` (synthetic.py lines 38-83). The resized camera image
and the skimage transforms `rotate`/`gaussian` are abstract arguments;
the numpy random state is threaded explicitly. Returns the image list
and the two-column label table. -/
def load_images {S : Type} (camera_resized : Img)
    (rotate gaussianBlur : Img → ℚ → Img) (drawNoise : S → Img × S)
    (n_scalars n_angles : ℕ) (s : S) : (List Img × Labels) × S :=
  let r := load_images_outer rotate gaussianBlur drawNoise camera_resized
    n_scalars n_angles (List.range n_angles) s
  ((r.1.1, ⟨r.1.2.1, r.1.2.2⟩), r.2)

/-- `np.sum(images, axis=-1)`: sum each image over its last axis,
turning each row into its sum. -/
def sumLastAxis (images : List Img) : List (List ℚ) :=
  images.map fun im => im.map List.sum

/-- `load_projections` (synthetic.py lines 9-35): calls `load_images`
and returns the images summed over their last axis together with the
unchanged label table. -/
def load_projections {S : Type} (camera_resized : Img)
    (rotate gaussianBlur : Img → ℚ → Img) (drawNoise : S → Img × S)
    (n_scalars n_angles : ℕ) (s : S) : (List (List ℚ) × Labels) × S :=
  let r := load_images camera_resized rotate gaussianBlur drawNoise
    n_scalars n_angles s
  ((sumLastAxis r.1.1, r.1.2), r.2)

/-- `rotmat @ point` for the 3x3 rotation matrix of
`load_points` (synthetic.py lines 113-120). -/
def matVec (m : List (List ℚ)) (v : List ℚ) : List ℚ :=
  m.map fun row => (List.zipWith (· * ·) row v).sum

/-- Loop body collection for `load_points`
(synthetic.py lines 107-127). `cos`, `sin` and the float value `pi` of
`np.pi` are abstract arguments; no random draw occurs anywhere. -/
def load_points_core (cos sin : ℚ → ℚ) (pi : ℚ) (n_scalars n_angles : ℕ) :
    List ℕ → (List (List ℚ) × List ℚ × List ℚ)
  | [] => ([], [], [])
  | i_angle :: rest =>
    let angle : ℚ := 2 * pi * i_angle / n_angles
    let rotmat : List (List ℚ) :=
      [[cos angle, -sin angle, 0], [sin angle, cos angle, 0], [0, 0, 1]]
    let rot_point := matVec rotmat [1, 1, 1]
    let inner :=
      (List.range n_scalars).map fun i_scalar =>
        let scalar : ℚ := 1 + i_scalar
        (rot_point.map fun c => scalar * c, angle, scalar)
    let outer := load_points_core cos sin pi n_scalars n_angles rest
    (inner.map (fun t => t.1) ++ outer.1,
     inner.map (fun t => t.2.1) ++ outer.2.1,
     inner.map (fun t => t.2.2) ++ outer.2.2)

/-- `load_points` (synthetic.py lines 86-135): points on a cone with
their label table. The function reads the ambient numpy random state
(the threaded `S` value) but never draws from it, and returns it
unchanged. -/
def load_points {S : Type} (cos sin : ℚ → ℚ) (pi : ℚ)
    (n_scalars n_angles : ℕ) (s : S) :
    (List (List ℚ) × Labels) × S :=
  let r := load_points_core cos sin pi n_scalars n_angles
    (List.range n_angles)
  ((r.1, ⟨r.2.1, r.2.2⟩), s)

/-- Python list indexing into a list of length `n`: a negative index
counts from the end. -/
def pyIdx (n : ℕ) (i : ℤ) : ℕ := (if i < 0 then (n : ℤ) + i else i).toNat

/-- The `(index, poisson rate)` assignment sequence of the branch of
`load_place_cells` selected for `i_cell` (synthetic.py lines 169-198),
in source order: branches for `i_cell == 0`, `i_cell == 1`,
`i_cell == n_cells - 2`, `i_cell == n_cells - 1`, and the general case
(which writes `i_cell - 2, i_cell - 1, i_cell, i_cell + 1, i_cell - 3`).
-/
def branch_targets (n_cells i_cell : ℕ) : List (ℤ × ℚ) :=
  if i_cell = 0 then
    [(-2, 1), (-1, 2), (0, 4), (1, 2), (2, 1)]
  else if i_cell = 1 then
    [(-1, 1), (0, 2), (1, 4), (2, 2), (3, 1)]
  else if (i_cell : ℤ) = (n_cells : ℤ) - 2 then
    [(-4, 1), (-3, 2), (-2, 4), (-1, 2), (0, 1)]
  else if (i_cell : ℤ) = (n_cells : ℤ) - 1 then
    [(-3, 1), (-2, 2), (-1, 4), (0, 2), (1, 1)]
  else
    [((i_cell : ℤ) - 2, 1), ((i_cell : ℤ) - 1, 2), ((i_cell : ℤ), 4),
     ((i_cell : ℤ) + 1, 2), ((i_cell : ℤ) - 3, 1)]

/-- Execute an assignment sequence on `cell_firings`, drawing one
Poisson sample per assignment from the threaded random state. -/
def apply_draws {S : Type} (poisson : S → ℚ → ℕ × S) (n_cells : ℕ) :
    List (ℤ × ℚ) → List ℕ → S → List ℕ × S
  | [], cf, s => (cf, s)
  | (i, lam) :: rest, cf, s =>
    let r := poisson s lam
    apply_draws poisson n_cells rest (cf.set (pyIdx n_cells i) r.1) r.2

/-- One row of `load_place_cells`: `cell_firings = np.zeros(n_cells)`
followed by the five Poisson-draw assignments of the branch selected
for `i_cell`. -/
def cell_row {S : Type} (poisson : S → ℚ → ℕ × S) (n_cells i_cell : ℕ)
    (s : S) : List ℕ × S :=
  apply_draws poisson n_cells (branch_targets n_cells i_cell)
    (List.replicate n_cells 0) s

/-- Inner loop of `load_place_cells` over `i_cell in range(n_cells)`
(synthetic.py lines 166-200): appends one firing row and one label
`i_cell / n_cells * 360` per cell. -/
def place_cells_rows {S : Type} (poisson : S → ℚ → ℕ × S) (n_cells : ℕ) :
    List ℕ → S → (List (List ℕ) × List ℚ) × S
  | [], s => (([], []), s)
  | i_cell :: rest, s =>
    let r := cell_row poisson n_cells i_cell s
    let outer := place_cells_rows poisson n_cells rest r.2
    ((r.1 :: outer.1.1, ((i_cell : ℚ) / n_cells * 360) :: outer.1.2),
      outer.2)

/-- Outer loop of `load_place_cells` over
`range(n_firing_per_cell)` (synthetic.py line 165). -/
def place_cells_reps {S : Type} (poisson : S → ℚ → ℕ × S)
    (n_cells : ℕ) : ℕ → S → (List (List ℕ) × List ℚ) × S
  | 0, s => (([], []), s)
  | reps + 1, s =>
    let block := place_cells_rows poisson n_cells (List.range n_cells) s
    let rest := place_cells_reps poisson n_cells reps block.2
    ((block.1.1 ++ rest.1.1, block.1.2 ++ rest.1.2), rest.2)

/-- `load_place_cells` (synthetic.py lines 138-202):
`n_firing_per_cell = int(n_times / n_cells)` repetitions of one row per
cell, with the one-column label table. -/
def load_place_cells {S : Type} (poisson : S → ℚ → ℕ × S)
    (n_times n_cells : ℕ) (s : S) : (List (List ℕ) × List ℚ) × S :=
  place_cells_reps poisson n_cells (n_times / n_cells) s

/-- Number of nonzero entries of a firing row. -/
def countNonzero (l : List ℕ) : ℕ := (l.filter fun v => v != 0).length

end Synthetic

namespace Synthetic

/-- The label columns and image count produced by the inner scalar
loop of `load_images`. -/
theorem load_images_inner_cols {S : Type} (gaussianBlur : Img → ℚ → Img)
    (drawNoise : S → Img × S) (rot_image : Img) (angle : ℚ) :
    ∀ (iss : List ℕ) (s : S),
      (load_images_inner gaussianBlur drawNoise rot_image angle iss
          s).1.1.length = iss.length ∧
      (load_images_inner gaussianBlur drawNoise rot_image angle iss
          s).1.2.1 = List.replicate iss.length angle ∧
      (load_images_inner gaussianBlur drawNoise rot_image angle iss
          s).1.2.2 = iss.map fun (i : ℕ) => 1 + 1/5 * (i : ℚ) := by
  intro iss
  induction iss with
  | nil => intro s; exact ⟨rfl, rfl, rfl⟩
  | cons i rest ih =>
    intro s
    obtain ⟨h1, h2, h3⟩ :=
      ih (drawNoise s).2
    refine ⟨?_, ?_, ?_⟩ <;>
      simp [load_images_inner, h1, h2, h3, List.replicate_succ]

/-- The label columns and image count produced by the outer angle loop
of `load_images`. -/
theorem load_images_outer_cols {S : Type}
    (rotate gaussianBlur : Img → ℚ → Img) (drawNoise : S → Img × S)
    (image : Img) (n_scalars n_angles : ℕ) :
    ∀ (ias : List ℕ) (s : S),
      (load_images_outer rotate gaussianBlur drawNoise image n_scalars
          n_angles ias s).1.1.length = ias.length * n_scalars ∧
      (load_images_outer rotate gaussianBlur drawNoise image n_scalars
          n_angles ias s).1.2.1 =
        ias.flatMap (fun ia =>
          List.replicate n_scalars (360 * (ia : ℚ) / n_angles)) ∧
      (load_images_outer rotate gaussianBlur drawNoise image n_scalars
          n_angles ias s).1.2.2 =
        ias.flatMap (fun _ =>
          (List.range n_scalars).map fun (i : ℕ) => 1 + 1/5 * (i : ℚ)) := by
  intro ias
  induction ias with
  | nil => intro s; simp [load_images_outer]
  | cons ia rest ih =>
    intro s
    obtain ⟨g1, g2, g3⟩ := load_images_inner_cols gaussianBlur drawNoise
      (rotate image (360 * (ia : ℚ) / n_angles)) (360 * (ia : ℚ) / n_angles)
      (List.range n_scalars) s
    obtain ⟨h1, h2, h3⟩ := ih
      (load_images_inner gaussianBlur drawNoise
        (rotate image (360 * (ia : ℚ) / n_angles))
        (360 * (ia : ℚ) / n_angles) (List.range n_scalars) s).2
    refine ⟨?_, ?_, ?_⟩ <;>
      simp [load_images_outer, g1, g2, g3, h1, h2, h3,
        Nat.succ_mul, Nat.add_comm]

/-- Indexing into a concatenation of equal-length blocks. -/
theorem getElem_flatMap_blocks {α β : Type} (blk : α → List β) (m : ℕ)
    (hm : ∀ a, (blk a).length = m) :
    ∀ (l : List α) (k j : ℕ) (hk : k < l.length), j < m →
      (l.flatMap blk)[k * m + j]? = (blk (l.get ⟨k, hk⟩))[j]? := by
  intro l
  induction l with
  | nil => intro k j hk _; simp at hk
  | cons a t ih =>
    intro k j hk hj
    cases k with
    | zero =>
      rw [List.flatMap_cons, Nat.zero_mul, Nat.zero_add,
        List.getElem?_append_left (by rw [hm a]; exact hj)]
      rfl
    | succ k =>
      have hmul : (k + 1) * m = k * m + m := by ring
      rw [List.flatMap_cons,
        List.getElem?_append_right (by rw [hm a]; omega)]
      have harith : (k + 1) * m + j - (blk a).length = k * m + j := by
        rw [hm a]; omega
      rw [harith, ih k j (by simpa using hk) hj]
      rfl

end Synthetic

/-- Claim C5:
For `n_scalars ≥ 1` and `n_angles ≥ 1`, `load_images` returns exactly
`n_scalars * n_angles` images and a two-column label table whose row at
position `i_angle * n_scalars + i_scalar` carries angle
`360 * i_angle / n_angles` and scalar `1 + 0.2 * i_scalar`;
`load_projections` returns the same label table and projections equal
to the sum of the corresponding image over its last axis. -/
theorem load_images_load_projections_spec {S : Type}
    (camera_resized : Synthetic.Img)
    (rotate gaussianBlur : Synthetic.Img → ℚ → Synthetic.Img)
    (drawNoise : S → Synthetic.Img × S) (n_scalars n_angles : ℕ)
    (s : S) (_hs : 1 ≤ n_scalars) (_ha : 1 ≤ n_angles)
    (i_angle i_scalar : ℕ) (hia : i_angle < n_angles)
    (his : i_scalar < n_scalars) :
    (Synthetic.load_images camera_resized rotate gaussianBlur drawNoise
        n_scalars n_angles s).1.1.length = n_scalars * n_angles ∧
    (Synthetic.load_images camera_resized rotate gaussianBlur drawNoise
        n_scalars n_angles s).1.2.angles[i_angle * n_scalars + i_scalar]?
      = some (360 * (i_angle : ℚ) / n_angles) ∧
    (Synthetic.load_images camera_resized rotate gaussianBlur drawNoise
        n_scalars n_angles s).1.2.scalars[i_angle * n_scalars + i_scalar]?
      = some (1 + 1/5 * (i_scalar : ℚ)) ∧
    (Synthetic.load_projections camera_resized rotate gaussianBlur
        drawNoise n_scalars n_angles s).1.1 =
      Synthetic.sumLastAxis
        (Synthetic.load_images camera_resized rotate gaussianBlur
          drawNoise n_scalars n_angles s).1.1 ∧
    (Synthetic.load_projections camera_resized rotate gaussianBlur
        drawNoise n_scalars n_angles s).1.2 =
      (Synthetic.load_images camera_resized rotate gaussianBlur drawNoise
        n_scalars n_angles s).1.2 := by
  obtain ⟨h1, h2, h3⟩ := Synthetic.load_images_outer_cols rotate
    gaussianBlur drawNoise camera_resized n_scalars n_angles
    (List.range n_angles) s
  refine ⟨?_, ?_, ?_, rfl, rfl⟩
  · show (Synthetic.load_images_outer rotate gaussianBlur drawNoise
      camera_resized n_scalars n_angles (List.range n_angles) s).1.1.length
        = n_scalars * n_angles
    rw [h1, List.length_range, Nat.mul_comm]
  · show (Synthetic.load_images_outer rotate gaussianBlur drawNoise
      camera_resized n_scalars n_angles (List.range n_angles)
        s).1.2.1[i_angle * n_scalars + i_scalar]? = _
    rw [h2, Synthetic.getElem_flatMap_blocks _ n_scalars
      (fun a => List.length_replicate ..) (List.range n_angles) i_angle
      i_scalar (by simpa using hia) his]
    simp [List.getElem?_replicate, his]
  · show (Synthetic.load_images_outer rotate gaussianBlur drawNoise
      camera_resized n_scalars n_angles (List.range n_angles)
        s).1.2.2[i_angle * n_scalars + i_scalar]? = _
    rw [h3]
    rw [Synthetic.getElem_flatMap_blocks
      (fun _ : ℕ =>
        (List.range n_scalars).map fun (i : ℕ) => (1 : ℚ) + 1/5 * (i : ℚ))
      n_scalars (fun a => by rw [List.length_map, List.length_range])
      (List.range n_angles) i_angle i_scalar (by simpa using hia) his]
    rw [List.getElem?_map, List.getElem?_range his]
    rfl

/-- Closed instance of `load_images_load_projections_spec` with one
angle and two scalars over a concrete 2x2 base image. -/
theorem load_images_load_projections_spec_witness :
    (1 ≤ 2 ∧ 1 ≤ 1 ∧ 0 < 1 ∧ 1 < 2) ∧
    ((Synthetic.load_images (S := ℕ) [[1, 2], [3, 4]] (fun im _ => im)
        (fun im _ => im) (fun s => ([[0, 0], [0, 0]], s + 1)) 2 1
        0).1.1.length = 2 * 1 ∧
    (Synthetic.load_images (S := ℕ) [[1, 2], [3, 4]] (fun im _ => im)
        (fun im _ => im) (fun s => ([[0, 0], [0, 0]], s + 1)) 2 1
        0).1.2.angles[0 * 2 + 1]? = some (360 * (0 : ℚ) / 1) ∧
    (Synthetic.load_images (S := ℕ) [[1, 2], [3, 4]] (fun im _ => im)
        (fun im _ => im) (fun s => ([[0, 0], [0, 0]], s + 1)) 2 1
        0).1.2.scalars[0 * 2 + 1]? = some (1 + 1/5 * (1 : ℚ)) ∧
    (Synthetic.load_projections (S := ℕ) [[1, 2], [3, 4]]
        (fun im _ => im) (fun im _ => im)
        (fun s => ([[0, 0], [0, 0]], s + 1)) 2 1 0).1.1 =
      Synthetic.sumLastAxis
        (Synthetic.load_images (S := ℕ) [[1, 2], [3, 4]]
          (fun im _ => im) (fun im _ => im)
          (fun s => ([[0, 0], [0, 0]], s + 1)) 2 1 0).1.1 ∧
    (Synthetic.load_projections (S := ℕ) [[1, 2], [3, 4]]
        (fun im _ => im) (fun im _ => im)
        (fun s => ([[0, 0], [0, 0]], s + 1)) 2 1 0).1.2 =
      (Synthetic.load_images (S := ℕ) [[1, 2], [3, 4]] (fun im _ => im)
        (fun im _ => im) (fun s => ([[0, 0], [0, 0]], s + 1)) 2 1
        0).1.2) :=
  ⟨⟨by decide, by decide, by decide, by decide⟩,
   by
    have h := load_images_load_projections_spec (S := ℕ)
      [[1, 2], [3, 4]] (fun im _ => im) (fun im _ => im)
      (fun s => ([[0, 0], [0, 0]], s + 1)) 2 1 0 (by decide) (by decide)
      0 1 (by decide) (by decide)
    simpa using h⟩

/-- Claim C7:
With the numpy random state threaded explicitly, two runs of each
synthetic generator from identical entry states and identical arguments
return identical arrays and label tables; `load_points` draws no random
numbers, so its output is independent of the entry state, which it
returns unchanged. -/
theorem synthetic_generators_deterministic {S : Type}
    (camera_resized : Synthetic.Img)
    (rotate gaussianBlur : Synthetic.Img → ℚ → Synthetic.Img)
    (drawNoise : S → Synthetic.Img × S) (poisson : S → ℚ → ℕ × S)
    (cos sin : ℚ → ℚ) (pi : ℚ) (n_scalars n_angles n_times n_cells : ℕ)
    (s₁ s₂ : S) (hs : s₁ = s₂) :
    Synthetic.load_images camera_resized rotate gaussianBlur drawNoise
        n_scalars n_angles s₁ =
      Synthetic.load_images camera_resized rotate gaussianBlur drawNoise
        n_scalars n_angles s₂ ∧
    Synthetic.load_projections camera_resized rotate gaussianBlur
        drawNoise n_scalars n_angles s₁ =
      Synthetic.load_projections camera_resized rotate gaussianBlur
        drawNoise n_scalars n_angles s₂ ∧
    Synthetic.load_place_cells poisson n_times n_cells s₁ =
      Synthetic.load_place_cells poisson n_times n_cells s₂ ∧
    (∀ t₁ t₂ : S,
      (Synthetic.load_points cos sin pi n_scalars n_angles t₁).1 =
        (Synthetic.load_points cos sin pi n_scalars n_angles t₂).1 ∧
      (Synthetic.load_points cos sin pi n_scalars n_angles t₁).2 = t₁) :=
  by subst hs; exact ⟨rfl, rfl, rfl, fun t₁ t₂ => ⟨rfl, rfl⟩⟩

/-- Closed instance of `synthetic_generators_deterministic` at concrete
draw functions over state type `ℕ`. -/
theorem synthetic_generators_deterministic_witness :
    ((7 : ℕ) = 7) ∧
    (Synthetic.load_images (S := ℕ) [[1]] (fun im _ => im)
        (fun im _ => im) (fun s => ([[0]], s + 1)) 1 1 7 =
      Synthetic.load_images (S := ℕ) [[1]] (fun im _ => im)
        (fun im _ => im) (fun s => ([[0]], s + 1)) 1 1 7 ∧
    Synthetic.load_projections (S := ℕ) [[1]] (fun im _ => im)
        (fun im _ => im) (fun s => ([[0]], s + 1)) 1 1 7 =
      Synthetic.load_projections (S := ℕ) [[1]] (fun im _ => im)
        (fun im _ => im) (fun s => ([[0]], s + 1)) 1 1 7 ∧
    Synthetic.load_place_cells (S := ℕ) (fun s _ => (1, s + 1)) 8 4 7 =
      Synthetic.load_place_cells (S := ℕ) (fun s _ => (1, s + 1)) 8 4 7 ∧
    (∀ t₁ t₂ : ℕ,
      (Synthetic.load_points (S := ℕ) (fun a => a) (fun a => a) 3 1 1
          t₁).1 =
        (Synthetic.load_points (S := ℕ) (fun a => a) (fun a => a) 3 1 1
          t₂).1 ∧
      (Synthetic.load_points (S := ℕ) (fun a => a) (fun a => a) 3 1 1
          t₁).2 = t₁)) :=
  ⟨rfl,
   synthetic_generators_deterministic [[1]] (fun im _ => im)
     (fun im _ => im) (fun s => ([[0]], s + 1)) (fun s _ => (1, s + 1))
     (fun a => a) (fun a => a) 3 1 1 8 4 7 7 rfl⟩

namespace Synthetic

/-- Setting one list entry changes the nonzero count by at most one. -/
theorem countNonzero_set_le (l : List ℕ) :
    ∀ (i v : ℕ), countNonzero (l.set i v) ≤ countNonzero l + 1 := by
  induction l with
  | nil => intro i v; simp [List.set]
  | cons a t ih =>
    intro i v
    cases i with
    | zero =>
      have h1 : countNonzero (v :: t) ≤ countNonzero t + 1 := by
        simp only [countNonzero, List.filter_cons]
        split <;> simp
      have h2 : countNonzero t ≤ countNonzero (a :: t) := by
        simp only [countNonzero, List.filter_cons]
        split <;> simp
      simpa [List.set] using h1.trans (by omega)
    | succ i =>
      have h := ih i v
      simp only [List.set, countNonzero, List.filter_cons]
      split <;> simpa using h

/-- `np.zeros(n)` has no nonzero entries. -/
theorem countNonzero_replicate (n : ℕ) :
    countNonzero (List.replicate n 0) = 0 := by
  induction n with
  | zero => rfl
  | succ n _ => simp [countNonzero, List.replicate_succ,
      List.filter_cons]

/-- Executing an assignment sequence preserves the row width. -/
theorem apply_draws_length {S : Type} (poisson : S → ℚ → ℕ × S)
    (n_cells : ℕ) :
    ∀ (ts : List (ℤ × ℚ)) (cf : List ℕ) (s : S),
      (apply_draws poisson n_cells ts cf s).1.length = cf.length := by
  intro ts
  induction ts with
  | nil => intro cf s; rfl
  | cons p rest ih =>
    intro cf s
    obtain ⟨i, lam⟩ := p
    simpa [apply_draws] using
      (ih (cf.set (pyIdx n_cells i) (poisson s lam).1) (poisson s lam).2)

/-- Executing an assignment sequence adds at most one nonzero entry per
assignment. -/
theorem apply_draws_countNonzero {S : Type} (poisson : S → ℚ → ℕ × S)
    (n_cells : ℕ) :
    ∀ (ts : List (ℤ × ℚ)) (cf : List ℕ) (s : S),
      countNonzero (apply_draws poisson n_cells ts cf s).1 ≤
        countNonzero cf + ts.length := by
  intro ts
  induction ts with
  | nil => intro cf s; simp [apply_draws]
  | cons p rest ih =>
    intro cf s
    obtain ⟨i, lam⟩ := p
    have ha := ih (cf.set (pyIdx n_cells i) (poisson s lam).1)
      (poisson s lam).2
    have hb := countNonzero_set_le cf (pyIdx n_cells i) (poisson s lam).1
    simp only [apply_draws, List.length_cons]
    omega

/-- Every branch of `load_place_cells` performs exactly five
assignments. -/
theorem branch_targets_length (n_cells i_cell : ℕ) :
    (branch_targets n_cells i_cell).length = 5 := by
  unfold branch_targets
  repeat' split
  all_goals rfl

/-- Each firing row has width `n_cells` and at most five nonzero
entries. -/
theorem cell_row_spec {S : Type} (poisson : S → ℚ → ℕ × S)
    (n_cells i_cell : ℕ) (s : S) :
    (cell_row poisson n_cells i_cell s).1.length = n_cells ∧
    countNonzero (cell_row poisson n_cells i_cell s).1 ≤ 5 := by
  constructor
  · rw [cell_row, apply_draws_length, List.length_replicate]
  · have h := apply_draws_countNonzero poisson n_cells
      (branch_targets n_cells i_cell) (List.replicate n_cells 0) s
    rw [branch_targets_length, countNonzero_replicate] at h
    simpa [cell_row] using h

/-- Row/label counts and per-row properties of the inner cell loop. -/
theorem place_cells_rows_spec {S : Type} (poisson : S → ℚ → ℕ × S)
    (n_cells : ℕ) :
    ∀ (cells : List ℕ) (s : S),
      (place_cells_rows poisson n_cells cells s).1.1.length =
        cells.length ∧
      (place_cells_rows poisson n_cells cells s).1.2.length =
        cells.length ∧
      ∀ row ∈ (place_cells_rows poisson n_cells cells s).1.1,
        row.length = n_cells ∧ countNonzero row ≤ 5 := by
  intro cells
  induction cells with
  | nil =>
    intro s
    refine ⟨rfl, rfl, ?_⟩
    intro row hr
    simp [place_cells_rows] at hr
  | cons i rest ih =>
    intro s
    obtain ⟨h1, h2, h3⟩ := ih (cell_row poisson n_cells i s).2
    refine ⟨by simp [place_cells_rows, h1], by simp [place_cells_rows, h2],
      ?_⟩
    intro row hr
    simp only [place_cells_rows, List.mem_cons] at hr
    rcases hr with rfl | hr
    · exact cell_row_spec poisson n_cells i s
    · exact h3 row hr

/-- Row/label counts and per-row properties of the repetition loop. -/
theorem place_cells_reps_spec {S : Type} (poisson : S → ℚ → ℕ × S)
    (n_cells : ℕ) :
    ∀ (reps : ℕ) (s : S),
      (place_cells_reps poisson n_cells reps s).1.1.length =
        reps * n_cells ∧
      (place_cells_reps poisson n_cells reps s).1.2.length =
        reps * n_cells ∧
      ∀ row ∈ (place_cells_reps poisson n_cells reps s).1.1,
        row.length = n_cells ∧ countNonzero row ≤ 5 := by
  intro reps
  induction reps with
  | zero =>
    intro s
    refine ⟨by simp [place_cells_reps], by simp [place_cells_reps], ?_⟩
    intro row hr
    simp [place_cells_reps] at hr
  | succ r ih =>
    intro s
    obtain ⟨g1, g2, g3⟩ := place_cells_rows_spec poisson n_cells
      (List.range n_cells) s
    obtain ⟨h1, h2, h3⟩ := ih
      (place_cells_rows poisson n_cells (List.range n_cells) s).2
    refine ⟨?_, ?_, ?_⟩
    · simp [place_cells_reps, g1, h1, Nat.succ_mul, Nat.add_comm]
    · simp [place_cells_reps, g2, h2, Nat.succ_mul, Nat.add_comm]
    · intro row hr
      simp only [place_cells_reps, List.mem_append] at hr
      rcases hr with hr | hr
      · exact g3 row hr
      · exact h3 row hr

end Synthetic

/-- Claim C9:
For `n_times ≥ 1` and `n_cells ≥ 4`, `load_place_cells` returns exactly
`(n_times / n_cells) * n_cells` firing rows (fewer than `n_times`
whenever `n_cells` does not divide `n_times`), each of width `n_cells`
with at most five nonzero entries, and one label per returned row. -/
theorem load_place_cells_spec {S : Type} (poisson : S → ℚ → ℕ × S)
    (n_times n_cells : ℕ) (s : S) (_h1 : 1 ≤ n_times)
    (_h4 : 4 ≤ n_cells) :
    (Synthetic.load_place_cells poisson n_times n_cells s).1.1.length =
      n_times / n_cells * n_cells ∧
    (¬ n_cells ∣ n_times →
      (Synthetic.load_place_cells poisson n_times n_cells
        s).1.1.length < n_times) ∧
    (∀ row ∈ (Synthetic.load_place_cells poisson n_times n_cells
        s).1.1,
      row.length = n_cells ∧ Synthetic.countNonzero row ≤ 5) ∧
    (Synthetic.load_place_cells poisson n_times n_cells s).1.2.length =
      (Synthetic.load_place_cells poisson n_times n_cells
        s).1.1.length := by
  obtain ⟨h1, h2, h3⟩ := Synthetic.place_cells_reps_spec poisson n_cells
    (n_times / n_cells) s
  simp only [Synthetic.load_place_cells]
  refine ⟨h1, ?_, h3, by rw [h1, h2]⟩
  intro hdvd
  rw [h1]
  have hle := Nat.div_mul_le_self n_times n_cells
  rcases lt_or_eq_of_le hle with hlt | heq
  · exact hlt
  · exact absurd ⟨n_times / n_cells,
      by rw [Nat.mul_comm n_cells (n_times / n_cells)]; exact heq.symm⟩
      hdvd

/-- Closed instance of `load_place_cells_spec` at ten time steps and
four cells. -/
theorem load_place_cells_spec_witness :
    ((1 ≤ 10 ∧ 4 ≤ 4) ∧
    ((Synthetic.load_place_cells (S := ℕ) (fun s _ => (1, s + 1)) 10 4
        0).1.1.length = 10 / 4 * 4 ∧
    (¬ (4 : ℕ) ∣ 10 →
      (Synthetic.load_place_cells (S := ℕ) (fun s _ => (1, s + 1)) 10 4
        0).1.1.length < 10) ∧
    (∀ row ∈ (Synthetic.load_place_cells (S := ℕ)
        (fun s _ => (1, s + 1)) 10 4 0).1.1,
      row.length = 4 ∧ Synthetic.countNonzero row ≤ 5) ∧
    (Synthetic.load_place_cells (S := ℕ) (fun s _ => (1, s + 1)) 10 4
        0).1.2.length =
      (Synthetic.load_place_cells (S := ℕ) (fun s _ => (1, s + 1)) 10 4
        0).1.1.length)) :=
  ⟨⟨by decide, by decide⟩,
   load_place_cells_spec (S := ℕ) (fun s _ => (1, s + 1)) 10 4 0
     (by decide) (by decide)⟩

namespace Experiment

/-- The learning-rate assignment of the training loop
(experiment.py lines 118-128): the only uncommented branch assigns
`lr = config.lr` when `120000 > step > 10000`; the warm-up and decay
branches are commented out, so every other step leaves the local `lr`
unbound (`none`). -/
def lr_at_step (config_lr : ℚ) (step : ℕ) : Option ℚ :=
  if 10000 < step ∧ step < 120000 then some config_lr else none

/-- One iteration of the training loop (experiment.py lines 112-138):
writing `param_group["lr"] = lr` reads the local `lr`, raising
`UnboundLocalError` (the step index is returned as the error) when no
branch assigned it; otherwise the iteration performs its single
optimizer update. -/
def train_step (config_lr : ℚ) (step : ℕ) : Except ℕ ℚ :=
  match lr_at_step config_lr step with
  | some lr => Except.ok lr
  | none => Except.error step

/-- The loop `for step in range(starting_step,
num_steps_train + starting_step)` of `Experiment.train_and_evaluate`:
returns the number of completed optimizer updates, or the step at which
the loop raised. -/
def train_loop (config_lr : ℚ) : ℕ → ℕ → Except ℕ ℕ
  | _, 0 => Except.ok 0
  | step, remaining + 1 =>
    match train_step config_lr step with
    | Except.error e => Except.error e
    | Except.ok _ =>
      match train_loop config_lr (step + 1) remaining with
      | Except.error e => Except.error e
      | Except.ok k => Except.ok (k + 1)

/-- `Experiment.train_and_evaluate` restricted to its training loop and
learning-rate schedule (experiment.py lines 79-138). -/
def train_and_evaluate (config_lr : ℚ)
    (starting_step num_steps_train : ℕ) : Except ℕ ℕ :=
  train_loop config_lr starting_step num_steps_train

end Experiment

/-- Claim C2:
Contrary to the claim, with `starting_step = 1` the very first
iteration reads the local `lr` without any branch having assigned it
(`1` is not strictly between `10000` and `120000`), so
`train_and_evaluate` raises at step 1 instead of completing
`num_steps_train` optimizer updates. -/
theorem train_and_evaluate_raises_at_first_step (config_lr : ℚ)
    (num_steps_train : ℕ) (h : 1 ≤ num_steps_train) :
    Experiment.train_and_evaluate config_lr 1 num_steps_train =
      Except.error 1 := by
  obtain ⟨m, rfl⟩ : ∃ m, num_steps_train = m + 1 :=
    ⟨num_steps_train - 1, by omega⟩
  rfl

/-- Closed instance of `train_and_evaluate_raises_at_first_step` at the
shipped configuration `num_steps_train = 25000`, `lr = 0.006`
(rnn_isometry.py). -/
theorem train_and_evaluate_raises_at_first_step_witness :
    (1 ≤ 25000) ∧
    Experiment.train_and_evaluate (3/500) 1 25000 = Except.error 1 :=
  ⟨by decide,
   train_and_evaluate_raises_at_first_step (3/500) 25000 (by decide)⟩

namespace Visualize

/-- One trajectory sample of the binning loop of `compute_ratemaps`
(visualize.py lines 100-125): a 2D position (one row of `pos_batch`)
and its activation vector `g_batch[i, :]` over the recorded units. -/
structure Sample where
  pos0 : ℚ
  pos1 : ℚ
  g : ℕ → ℚ

/-- `x_batch` / `y_batch` (visualize.py lines 112-115): affine rescale
of a position coordinate into `[0, res)` bin space. -/
def binCoord (box_len : ℚ) (res : ℕ) (p : ℚ) : ℚ :=
  (p + box_len / 2) / box_len * res

/-- The loop guard and bin assignment
(visualize.py lines 117-122): a sample contributes to bin `b` iff
`x >= 0 and x < res and y >= 0 and y < res` and
`(int(x), int(y)) = b` (Python `int()` truncation; the coordinates are
nonnegative under the guard, so truncation is the floor). -/
def hits (box_width box_height : ℚ) (res : ℕ) (smp : Sample)
    (b : ℕ × ℕ) : Bool :=
  let x := binCoord box_width res smp.pos0
  let y := binCoord box_height res smp.pos1
  decide (0 ≤ x) && decide (x < res) && decide (0 ≤ y) &&
    decide (y < res) && decide ((⌊x⌋.toNat, ⌊y⌋.toNat) = b)

/-- `counts[x, y]` after the accumulation loop of `compute_ratemaps`. -/
def binCounts (box_width box_height : ℚ) (res : ℕ) :
    List Sample → ℕ × ℕ → ℕ
  | [], _ => 0
  | smp :: rest, b =>
    (if hits box_width box_height res smp b then 1 else 0) +
      binCounts box_width box_height res rest b

/-- `activations[n, x, y]` after the accumulation loop of
`compute_ratemaps`: the sum of `g_batch[i, n]` over the samples falling
in the bin. -/
def binActivations (box_width box_height : ℚ) (res : ℕ) :
    List Sample → ℕ → ℕ × ℕ → ℚ
  | [], _, _ => 0
  | smp :: rest, n, b =>
    (if hits box_width box_height res smp b then smp.g n else 0) +
      binActivations box_width box_height res rest n b

/-- numpy float division at the site `activations[:, x, y] /=
counts[x, y]`, invalid when the divisor is zero. -/
def npDiv (a b : ℚ) : Option ℚ := if b = 0 then none else some (a / b)

/-- The per-bin normalization of `compute_ratemaps`
(visualize.py lines 127-130): divide only when `counts[x, y] > 0`,
otherwise keep the accumulated value. -/
def normalizeBin (act : ℚ) (cnt : ℕ) : Option ℚ :=
  if 0 < cnt then npDiv act (cnt : ℚ) else some act

/-- Entry `[n, x, y]` of the rate map returned by `compute_ratemaps`
(visualize.py lines 71-142), for the binning/normalization part of the
function. -/
def compute_ratemaps_at (box_width box_height : ℚ) (res : ℕ)
    (samples : List Sample) (n : ℕ) (b : ℕ × ℕ) : Option ℚ :=
  normalizeBin (binActivations box_width box_height res samples n b)
    (binCounts box_width box_height res samples b)

/-- Entry `[n, x, y]` of the rate map returned by
`compute_ratemaps_single_agent` (visualize.py lines 145-198), whose
accumulation and normalization loops are identical to those of
`compute_ratemaps`. -/
def compute_ratemaps_single_agent_at (box_width box_height : ℚ)
    (res : ℕ) (samples : List Sample) (n : ℕ) (b : ℕ × ℕ) :
    Option ℚ :=
  normalizeBin (binActivations box_width box_height res samples n b)
    (binCounts box_width box_height res samples b)

/-- A bin hit by no sample accumulates no activation. -/
theorem binActivations_eq_zero_of_no_hit (box_width box_height : ℚ)
    (res : ℕ) :
    ∀ (samples : List Sample) (n : ℕ) (b : ℕ × ℕ),
      (∀ smp ∈ samples, hits box_width box_height res smp b = false) →
      binActivations box_width box_height res samples n b = 0 := by
  intro samples
  induction samples with
  | nil => intro n b _; rfl
  | cons smp rest ih =>
    intro n b hno
    have h1 := hno smp (List.mem_cons_self ..)
    have h2 := ih n b fun x hx => hno x (List.mem_cons_of_mem _ hx)
    simp [binActivations, h1, h2]

end Visualize

/-- Claim C10:
The per-bin normalization of `compute_ratemaps` and
`compute_ratemaps_single_agent` divides only when `counts[x, y] > 0`,
so the division site is never invoked with a zero divisor (the result
is always defined), and a bin hit by no trajectory sample keeps
activation exactly `0` in the returned rate map. -/
theorem compute_ratemaps_no_div_by_zero (box_width box_height : ℚ)
    (res : ℕ) (samples : List Visualize.Sample) (n : ℕ) (b : ℕ × ℕ) :
    (∃ v, Visualize.compute_ratemaps_at box_width box_height res samples
        n b = some v) ∧
    (∃ v, Visualize.compute_ratemaps_single_agent_at box_width
        box_height res samples n b = some v) ∧
    ((∀ smp ∈ samples,
        Visualize.hits box_width box_height res smp b = false) →
      Visualize.compute_ratemaps_at box_width box_height res samples n b
          = some 0 ∧
        Visualize.compute_ratemaps_single_agent_at box_width box_height
          res samples n b = some 0) := by
  have hsome : ∀ act cnt, ∃ v, Visualize.normalizeBin act cnt = some v := by
    intro act cnt
    by_cases h : 0 < cnt
    · refine ⟨act / cnt, ?_⟩
      have hne : ((cnt : ℚ)) ≠ 0 := by positivity
      simp [Visualize.normalizeBin, Visualize.npDiv, h, hne]
    · exact ⟨act, by simp [Visualize.normalizeBin, h]⟩
  have hcnt : ∀ (ss : List Visualize.Sample),
      (∀ smp ∈ ss, Visualize.hits box_width box_height res smp b
        = false) →
      Visualize.binCounts box_width box_height res ss b = 0 := by
    intro ss
    induction ss with
    | nil => intro _; rfl
    | cons smp rest ih =>
      intro hno
      have h1 := hno smp (List.mem_cons_self ..)
      have h2 := ih fun x hx => hno x (List.mem_cons_of_mem _ hx)
      simp [Visualize.binCounts, h1, h2]
  refine ⟨hsome .., hsome .., ?_⟩
  intro hno
  have ha := Visualize.binActivations_eq_zero_of_no_hit box_width
    box_height res samples n b hno
  have hc := hcnt samples hno
  constructor <;>
    simp [Visualize.compute_ratemaps_at,
      Visualize.compute_ratemaps_single_agent_at, ha, hc,
      Visualize.normalizeBin]

/-- Closed instance of `compute_ratemaps_no_div_by_zero`: one sample at
position `(10, 10)` of a 2x2 box with `res = 2` fails the range guard,
so bin `(0, 0)` is unvisited and keeps value `0`. -/
theorem compute_ratemaps_no_div_by_zero_witness :
    (∀ smp ∈ [Visualize.Sample.mk 10 10 (fun _ => 1)],
      Visualize.hits 2 2 2 smp (0, 0) = false) ∧
    ((∃ v, Visualize.compute_ratemaps_at 2 2 2
        [Visualize.Sample.mk 10 10 (fun _ => 1)] 0 (0, 0) = some v) ∧
    (∃ v, Visualize.compute_ratemaps_single_agent_at 2 2 2
        [Visualize.Sample.mk 10 10 (fun _ => 1)] 0 (0, 0) = some v) ∧
    (Visualize.compute_ratemaps_at 2 2 2
        [Visualize.Sample.mk 10 10 (fun _ => 1)] 0 (0, 0) = some 0 ∧
      Visualize.compute_ratemaps_single_agent_at 2 2 2
        [Visualize.Sample.mk 10 10 (fun _ => 1)] 0 (0, 0) = some 0)) := by
  have hno : ∀ smp ∈ [Visualize.Sample.mk 10 10 (fun _ => 1)],
      Visualize.hits 2 2 2 smp (0, 0) = false := by
    intro smp hs
    rcases List.mem_singleton.mp hs with rfl
    norm_num [Visualize.hits, Visualize.binCoord]
  obtain ⟨w1, w2, w3⟩ := compute_ratemaps_no_div_by_zero 2 2 2
    [Visualize.Sample.mk 10 10 (fun _ => 1)] 0 (0, 0)
  exact ⟨hno, w1, w2, w3 hno⟩

namespace RnnIsometry

/-- Split the textual argument list of a Python call at top-level
commas: `depth` counts unclosed round/square brackets, `inStr` tracks
double-quoted string literals. This mirrors how the Python grammar
groups the arguments of a call across physical lines. -/
def splitArgsAux : List Char → ℕ → Bool → List Char → List (List Char)
  | [], _, _, acc => [acc.reverse]
  | c :: rest, depth, inStr, acc =>
    if inStr then
      splitArgsAux rest depth (c ≠ '"') (c :: acc)
    else if c = '"' then
      splitArgsAux rest depth true (c :: acc)
    else if c = '(' ∨ c = '[' then
      splitArgsAux rest (depth + 1) false (c :: acc)
    else if c = ')' ∨ c = ']' then
      splitArgsAux rest (depth - 1) false (c :: acc)
    else if c = ',' ∧ depth = 0 then
      acc.reverse :: splitArgsAux rest 0 false []
    else
      splitArgsAux rest depth false (c :: acc)

/-- Top-level comma split of an argument text. -/
def splitArgs (s : String) : List (List Char) :=
  splitArgsAux s.data 0 false []

/-- Count `=` signs at bracket depth 0 outside string literals. -/
def topLevelEqCount : List Char → ℕ → Bool → ℕ
  | [], _, _ => 0
  | c :: rest, depth, inStr =>
    if inStr then topLevelEqCount rest depth (c ≠ '"')
    else if c = '"' then topLevelEqCount rest depth true
    else if c = '(' ∨ c = '[' then topLevelEqCount rest (depth + 1) false
    else if c = ')' ∨ c = ']' then topLevelEqCount rest (depth - 1) false
    else if c = '=' ∧ depth = 0 then 1 + topLevelEqCount rest depth false
    else topLevelEqCount rest depth false

/-- A chunk of whitespace only (what a trailing comma leaves behind,
which Python accepts). -/
def isBlank (c : List Char) : Bool :=
  c.all fun ch => (ch == ' ') || (ch == '\n')

/-- A comma-chunk of a call argument list is well formed when it is a
single keyword argument `name = expr` (exactly one top-level `=`) or
the blank tail after a trailing comma. Two top-level `=` signs in one
chunk mean two juxtaposed assignments, which Python rejects as a
`SyntaxError`. -/
def validArgChunk (c : List Char) : Bool :=
  topLevelEqCount c 0 false == 1 || isBlank c

/-- The verbatim text between `d(` and `)` of the
`config.model = d(...)` assignment of `get_config`
(rnn_isometry.py lines 40-57). Line 54 (`x_star = ...`) has no trailing
comma, so the `x_star` and `sigma_star` assignments fall into a single
comma-chunk. -/
def model_args_text : String :=
  "\n        trans_type=\"nonlinear_simple\",\n        rnn_step=10,\n        num_grid=40,\n        num_neurons=1800,\n        block_size=12,\n        sigma=0.07,\n        w_kernel=1.05,\n        w_trans=0.1,\n        w_isometry=0.005,\n        w_reg_u=0.2,\n        reg_decay_until=15000,\n        adaptive_dr=True,\n        s_0 = 0.2,\n        x_star = torch.tensor([0.5, 0.5])\n        sigma_star = 0.1,\n        reward_step = 20000,\n    "

end RnnIsometry

/-- Claim C4:
Contrary to the claim, `get_config` cannot return anything: the
argument list of its `config.model = d(...)` call is not a well-formed
keyword-argument sequence (the chunk holding `x_star` and `sigma_star`
contains two top-level `=` assignments because the comma after
`torch.tensor([0.5, 0.5])` is missing), and exactly one chunk is bad,
so importing the module raises `SyntaxError` before `get_config` can
run. -/
theorem rnn_isometry_model_args_syntax_error :
    ((RnnIsometry.splitArgs RnnIsometry.model_args_text).all
      RnnIsometry.validArgChunk) = false ∧
    ((RnnIsometry.splitArgs RnnIsometry.model_args_text).filter
      fun c => !RnnIsometry.validArgChunk c).length = 1 ∧
    (RnnIsometry.splitArgs RnnIsometry.model_args_text).length = 16 := by
  refine ⟨by decide, by decide, by decide⟩
